import Mathlib

/-!
Verification of the bounds-fit engine and the render-fallback controller of the
spine-ts demo repository.  The numeric model `JsNum` is an extended-rational
shallow embedding of JavaScript IEEE-754 doubles: it keeps NaN and the two
infinities explicit and represents every finite value by a rational number
(rounding of finite arithmetic is outside the model; every operation used by
the embedded code on the inputs considered here is exact).
-/

namespace SpineDemo

/-- Model of a JavaScript number: NaN, the two infinities, or a finite value. -/
inductive JsNum where
  | nan : JsNum
  | posInf : JsNum
  | negInf : JsNum
  | fin : ℚ → JsNum
deriving DecidableEq

/-- JavaScript `isFinite`. -/
def jsIsFinite : JsNum → Bool
  | .fin _ => true
  | _ => false

/-- JavaScript `<` (any comparison with NaN is false). -/
def jsLt : JsNum → JsNum → Bool
  | .nan, _ => false
  | _, .nan => false
  | .negInf, .negInf => false
  | .negInf, _ => true
  | _, .negInf => false
  | .posInf, _ => false
  | _, .posInf => true
  | .fin a, .fin b => decide (a < b)

/-- JavaScript `>`. -/
def jsGt (a b : JsNum) : Bool := jsLt b a

/-- JavaScript `Math.min` (NaN-propagating). -/
def jsMin : JsNum → JsNum → JsNum
  | .nan, _ => .nan
  | _, .nan => .nan
  | .negInf, _ => .negInf
  | _, .negInf => .negInf
  | .posInf, x => x
  | x, .posInf => x
  | .fin a, .fin b => .fin (min a b)

/-- JavaScript `Math.max` (NaN-propagating). -/
def jsMax : JsNum → JsNum → JsNum
  | .nan, _ => .nan
  | _, .nan => .nan
  | .posInf, _ => .posInf
  | _, .posInf => .posInf
  | .negInf, x => x
  | x, .negInf => x
  | .fin a, .fin b => .fin (max a b)

/-- JavaScript addition on the extended numbers. -/
def jsAdd : JsNum → JsNum → JsNum
  | .nan, _ => .nan
  | _, .nan => .nan
  | .posInf, .negInf => .nan
  | .negInf, .posInf => .nan
  | .posInf, _ => .posInf
  | _, .posInf => .posInf
  | .negInf, _ => .negInf
  | _, .negInf => .negInf
  | .fin a, .fin b => .fin (a + b)

/-- JavaScript subtraction on the extended numbers. -/
def jsSub : JsNum → JsNum → JsNum
  | .nan, _ => .nan
  | _, .nan => .nan
  | .posInf, .posInf => .nan
  | .negInf, .negInf => .nan
  | .posInf, _ => .posInf
  | .negInf, _ => .negInf
  | _, .posInf => .negInf
  | _, .negInf => .posInf
  | .fin a, .fin b => .fin (a - b)

/-- JavaScript multiplication on the extended numbers. -/
def jsMul : JsNum → JsNum → JsNum
  | .nan, _ => .nan
  | _, .nan => .nan
  | .posInf, .posInf => .posInf
  | .posInf, .negInf => .negInf
  | .negInf, .posInf => .negInf
  | .negInf, .negInf => .posInf
  | .posInf, .fin q => if q = 0 then .nan else if 0 < q then .posInf else .negInf
  | .fin q, .posInf => if q = 0 then .nan else if 0 < q then .posInf else .negInf
  | .negInf, .fin q => if q = 0 then .nan else if 0 < q then .negInf else .posInf
  | .fin q, .negInf => if q = 0 then .nan else if 0 < q then .negInf else .posInf
  | .fin a, .fin b => .fin (a * b)

/-- JavaScript division on the extended numbers (signed zero is not modelled;
division of a nonzero finite value by zero yields the infinity matching the
numerator's sign). -/
def jsDiv : JsNum → JsNum → JsNum
  | .nan, _ => .nan
  | _, .nan => .nan
  | .posInf, .posInf => .nan
  | .posInf, .negInf => .nan
  | .negInf, .posInf => .nan
  | .negInf, .negInf => .nan
  | .posInf, .fin q => if 0 ≤ q then .posInf else .negInf
  | .negInf, .fin q => if 0 ≤ q then .negInf else .posInf
  | .fin _, .posInf => .fin 0
  | .fin _, .negInf => .fin 0
  | .fin a, .fin b =>
    if b = 0 then (if a = 0 then .nan else if 0 < a then .posInf else .negInf)
    else .fin (a / b)

/-- A world-space 2D point as produced by `computeWorldVertices`. -/
structure Pt where
  x : JsNum
  y : JsNum
deriving DecidableEq

/-- Whether both coordinates of a point are finite. -/
def ptFinite (p : Pt) : Bool := jsIsFinite p.x && jsIsFinite p.y

/-- One drawable slot attachment, carrying its posed world vertices.
`region` corresponds to `spine.RegionAttachment` (four corner vertices in the
source; the list length is not constrained by the bounds code), `mesh` to
`spine.MeshAttachment`.  A slot with no attachment is simply absent from the
list (the source `continue`s past it). -/
inductive Attachment where
  | region : List Pt → Attachment
  | mesh : List Pt → Attachment
deriving DecidableEq

/-- Running min/max accumulator of the bounds loops. -/
structure BState where
  minX : JsNum
  minY : JsNum
  maxX : JsNum
  maxY : JsNum
deriving DecidableEq

/-- Initial accumulator: `minX = minY = Infinity`, `maxX = maxY = -Infinity`. -/
def bInit : BState := ⟨.posInf, .posInf, .negInf, .negInf⟩

/-- One vertex step of `getBounds` (SpineCanvas.tsx, manual-AABB variant):
`minX = Math.min(minX, x)` and so on. -/
def gbPoint (st : BState) (p : Pt) : BState :=
  ⟨jsMin st.minX p.x, jsMin st.minY p.y, jsMax st.maxX p.x, jsMax st.maxY p.y⟩

/-- One attachment of the `getBounds` slot loop: region vertices are folded in
unconditionally, mesh vertices only when `isFinite(x) && isFinite(y)`. -/
def gbAttachment (st : BState) : Attachment → BState
  | .region pts => pts.foldl gbPoint st
  | .mesh pts => pts.foldl (fun s p => if ptFinite p then gbPoint s p else s) st

/-- The invalid-bounds test of `getBounds`: any non-finite extreme, or an
inverted box. -/
def gbInvalid (st : BState) : Bool :=
  !jsIsFinite st.minX || !jsIsFinite st.minY || !jsIsFinite st.maxX || !jsIsFinite st.maxY ||
    jsGt st.minX st.maxX || jsGt st.minY st.maxY

/-- Result record of `getBounds`. -/
structure GBOut where
  w : JsNum
  h : JsNum
  cx : JsNum
  cy : JsNum
  minX : JsNum
  minY : JsNum
  maxX : JsNum
  maxY : JsNum
deriving DecidableEq

/-- The default-box replacement of `getBounds`: an invalid accumulator is
replaced wholesale by `{-100,-100,100,100}`. -/
def gbDefault (st : BState) : BState :=
  if gbInvalid st then ⟨.fin (-100), .fin (-100), .fin 100, .fin 100⟩ else st

/-- `getBounds` of SpineCanvas.tsx (manual-AABB variant, lines 84-153):
min/max over region vertices (unfiltered) and finite mesh vertices; on any
invalid extreme the box defaults to `{-100,-100,100,100}`; width and height
are clamped below at 50 and the centre is `min + clampedExtent/2`. -/
def getBounds (slots : List Attachment) : GBOut :=
  let st := gbDefault (slots.foldl gbAttachment bInit)
  let w := jsMax (.fin 50) (jsSub st.maxX st.minX)
  let h := jsMax (.fin 50) (jsSub st.maxY st.minY)
  let cx := jsAdd st.minX (jsDiv w (.fin 2))
  let cy := jsAdd st.minY (jsDiv h (.fin 2))
  ⟨w, h, cx, cy, st.minX, st.minY, st.maxX, st.maxY⟩

/-- One vertex step of `computeAABB` (multi-skeleton variant, lines 618-648):
guarded assignments `if (x < minX) minX = x` etc., so NaN coordinates never
update anything while infinite ones do. -/
def caPoint (st : BState) (p : Pt) : BState :=
  ⟨if jsLt p.x st.minX then p.x else st.minX,
   if jsLt p.y st.minY then p.y else st.minY,
   if jsGt p.x st.maxX then p.x else st.maxX,
   if jsGt p.y st.maxY then p.y else st.maxY⟩

/-- One attachment of the `computeAABB` slot loop (same treatment for region
and mesh vertices, no finiteness filter). -/
def caAttachment (st : BState) : Attachment → BState
  | .region pts => pts.foldl caPoint st
  | .mesh pts => pts.foldl caPoint st

/-- Result record of `computeAABB`. -/
structure AABB where
  minX : JsNum
  minY : JsNum
  maxX : JsNum
  maxY : JsNum
  width : JsNum
  height : JsNum
deriving DecidableEq

/-- The fallback replacement of `computeAABB`: if `minX` remained `Infinity`
the whole box becomes `{0,0,1,1}`. -/
def caDefault (st : BState) : BState :=
  if st.minX = JsNum.posInf then ⟨.fin 0, .fin 0, .fin 1, .fin 1⟩ else st

/-- `computeAABB` of SpineCanvas.tsx (multi-skeleton variant): min/max via
guarded comparisons; if `minX` remained `Infinity` the box falls back to
`{0,0,1,1}`. -/
def computeAABB (slots : List Attachment) : AABB :=
  let st := caDefault (slots.foldl caAttachment bInit)
  ⟨st.minX, st.minY, st.maxX, st.maxY, jsSub st.maxX st.minX, jsSub st.maxY st.minY⟩

/-! Spec-side union of finite points (used only to compare `getBounds` against
the specification's description of `computeBounds`). -/

/-- All world vertices of all attachments, in traversal order. -/
def allPoints : List Attachment → List Pt
  | [] => []
  | .region pts :: rest => pts ++ allPoints rest
  | .mesh pts :: rest => pts ++ allPoints rest

/-- The finite points among all world vertices. -/
def finitePts (slots : List Attachment) : List Pt := (allPoints slots).filter ptFinite

/-- The vertices the `getBounds` loop actually folds in: region vertices
unconditionally, mesh vertices only when finite. -/
def contributedOf : Attachment → List Pt
  | .region pts => pts
  | .mesh pts => pts.filter ptFinite

/-- Concatenation of the contributed vertices over all attachments. -/
def contributed : List Attachment → List Pt
  | [] => []
  | a :: rest => contributedOf a ++ contributed rest

/-- A rational axis-aligned box. -/
structure QBox where
  minX : ℚ
  minY : ℚ
  maxX : ℚ
  maxY : ℚ
deriving DecidableEq

/-- Union step on rational boxes. -/
def qStep (b : QBox) (q : ℚ × ℚ) : QBox :=
  ⟨min b.minX q.1, min b.minY q.2, max b.maxX q.1, max b.maxY q.2⟩

/-- The rational value of a finite `JsNum` (zero on the non-finite cases,
which the callers below never hit). -/
def qOf : JsNum → ℚ
  | .fin q => q
  | _ => 0

/-- Rational coordinates of a point. -/
def qPt (p : Pt) : ℚ × ℚ := (qOf p.x, qOf p.y)

/-- Modelled from the spec: "the union bounding box over all finite points
across all vertex sets"; `none` when no finite point exists. -/
def specFiniteUnion (slots : List Attachment) : Option QBox :=
  match (finitePts slots).map qPt with
  | [] => none
  | q :: qs => some (qs.foldl qStep ⟨q.1, q.2, q.1, q.2⟩)

/-! The camera-fit computations. -/

/-- Camera state written by `fitCamera` (zoom, centre, viewport). -/
structure CameraFit where
  zoom : JsNum
  centerX : JsNum
  centerY : JsNum
  viewportW : ℚ
  viewportH : ℚ
deriving DecidableEq

/-- `fitCamera` of SpineCanvas.tsx (manual-AABB variant, lines 156-185): the
bounds extents are clamped below at `minSize = 100`, the raw zoom is the
larger of the two padded extent/viewport ratios, and the applied zoom is
clamped into `[0.005, 5.0]`.  The source's default padding is 1.5. -/
def fitCamera (slots : List Attachment) (cssW cssH padding : ℚ) : CameraFit :=
  let b := getBounds slots
  let w := jsMax (.fin 100) b.w
  let h := jsMax (.fin 100) b.h
  let zoomX := jsDiv (jsMul w (.fin padding)) (.fin cssW)
  let zoomY := jsDiv (jsMul h (.fin padding)) (.fin cssH)
  let rawZoom := jsMax zoomX zoomY
  let zoom := jsMin (.fin 5) (jsMax (.fin (1/200)) rawZoom)
  ⟨zoom, b.cx, b.cy, cssW, cssH⟩

/-- The extremes reported by the external `spine.SkeletonBounds` helper
(an opaque collaborator; its output is taken as input here). -/
structure SBBounds where
  minX : ℚ
  minY : ℚ
  maxX : ℚ
  maxY : ℚ
deriving DecidableEq

/-- Camera state written by the SkeletonBounds `fitCamera` variant. -/
structure CameraFitSB where
  zoom : ℚ
  centerX : ℚ
  centerY : ℚ
deriving DecidableEq

/-- `getBounds` of the SkeletonBounds variant (lines 984-993): extents clamped
below at `1e-6`, centre `min + extent/2`. -/
def getBoundsSB (b : SBBounds) : ℚ × ℚ × ℚ × ℚ :=
  let w := max (1/1000000) (b.maxX - b.minX)
  let h := max (1/1000000) (b.maxY - b.minY)
  (w, h, b.minX + w / 2, b.minY + h / 2)

/-- `fitCamera` of the SkeletonBounds variant (lines 995-1009): zoom is the
larger padded ratio with NO clamp (the source's default padding is 1.1). -/
def fitCameraSB (b : SBBounds) (cssW cssH padding : ℚ) : CameraFitSB :=
  let g := getBoundsSB b
  let zoomX := g.1 * padding / cssW
  let zoomY := g.2.1 * padding / cssH
  (⟨max zoomX zoomY, g.2.2.1, g.2.2.2⟩ : CameraFitSB)

/-! The grid layout. -/

/-- `Math.ceil(Math.sqrt(n))` for a natural shape count. -/
def gridCols (n : ℕ) : ℕ :=
  if Nat.sqrt n * Nat.sqrt n = n then Nat.sqrt n else Nat.sqrt n + 1

/-- `Math.ceil(n / cols)`. -/
def gridRows (n : ℕ) : ℕ := (n + gridCols n - 1) / gridCols n

/-- Per-shape output of `layoutGrid`: the scale and translation written onto
the skeleton. -/
structure GridPlacement where
  scaleX : JsNum
  scaleY : JsNum
  x : JsNum
  y : JsNum
deriving DecidableEq

/-- The body of the `layoutGrid` loop for shape index `i` (SpineCanvas.tsx
lines 713-733): cell `(i % cols, i / cols)`, extents clamped below at 1,
`scale = min(cellW/bw, cellH/bh) * 0.9` (0.9 is the source's padding
constant), and the bounds centre translated onto the cell centre. -/
def placeOne (cols : ℕ) (cellW cellH : ℚ) (i : ℕ) (shape : List Attachment) : GridPlacement :=
  let cx : ℕ := i % cols
  let cy : ℕ := i / cols
  let targetCx : ℚ := (cx : ℚ) * cellW + cellW / 2
  let targetCy : ℚ := (cy : ℚ) * cellH + cellH / 2
  let aabb := computeAABB shape
  let bw := jsMax aabb.width (.fin 1)
  let bh := jsMax aabb.height (.fin 1)
  let scale := jsMul (jsMin (jsDiv (.fin cellW) bw) (jsDiv (.fin cellH) bh)) (.fin (9/10))
  let centerX := jsAdd aabb.minX (jsDiv bw (.fin 2))
  let centerY := jsAdd aabb.minY (jsDiv bh (.fin 2))
  ⟨scale, scale,
   jsSub (.fin targetCx) (jsMul centerX scale),
   jsSub (.fin targetCy) (jsMul centerY scale)⟩

/-- Index-carrying map used to render the `for (let i = 0; ...)` loop. -/
def mapWithIndex (f : ℕ → List Attachment → GridPlacement) :
    ℕ → List (List Attachment) → List GridPlacement
  | _, [] => []
  | k, s :: rest => f k s :: mapWithIndex f (k + 1) rest

/-- `layoutGrid` of SpineCanvas.tsx (lines 707-734): grid dimensions from the
count alone, then an independent per-shape placement. -/
def layoutGrid (shapes : List (List Attachment)) (W H : ℚ) : List GridPlacement :=
  if shapes.length = 0 then [] else
    let cols := gridCols shapes.length
    let rows := gridRows shapes.length
    mapWithIndex (placeOne cols (W / (cols : ℚ)) (H / (rows : ℚ))) 0 shapes

/-! The render-fallback controller (SpineRenderer.tsx). -/

/-- Result of one invocation of the WebGL error handler: the forcePlayer flag
after the call, how many `setForcePlayer` state updates were issued, and the
handler's return value (the source function returns `undefined`, modelled as
`none`). -/
structure ErrorHandlerResult where
  forcePlayer : Bool
  setStateCalls : ℕ
  returned : Option Bool
deriving DecidableEq

/-- `handleWebglError` of SpineRenderer.tsx (lines 70-79): switch to the
Player backend the first time an unhealthy signal arrives, and only then. -/
def handleWebglError (enableAutoFallback forcePlayer : Bool) : ErrorHandlerResult :=
  if enableAutoFallback && !forcePlayer then ⟨true, 1, none⟩ else ⟨forcePlayer, 0, none⟩

/-- The `useState(false)` initial value of the forcePlayer flag: a fresh
mount lifecycle starts in the Primary state. -/
def initialForcePlayer : Bool := false

/-- Deliver `n` consecutive unhealthy signals to the controller; returns the
final forcePlayer flag and the total number of state-update notifications. -/
def runUnhealthy (ea : Bool) : Bool → ℕ → Bool × ℕ
  | fp, 0 => (fp, 0)
  | fp, n + 1 =>
    let r := handleWebglError ea fp
    let rest := runUnhealthy ea r.forcePlayer n
    (rest.1, r.setStateCalls + rest.2)

/-- The two rendering backends. -/
inductive RenderMode where
  | player : RenderMode
  | webgl : RenderMode
deriving DecidableEq

/-- `effectiveMode` of SpineRenderer.tsx (lines 66-67). -/
def effectiveMode (renderMode : RenderMode) (enableAutoFallback forcePlayer : Bool) : RenderMode :=
  if renderMode = RenderMode.webgl ∧ enableAutoFallback = true ∧ forcePlayer = true then
    RenderMode.player
  else renderMode

/-! The visibility watchdog inside the render loop of SpineCanvas.tsx. -/

/-- Watchdog state: the timestamp at which the current invisible streak began
(0 meaning "no streak"), and the number of `onError('no-visual')` calls so
far. -/
structure WatchdogState where
  start : ℚ
  fired : ℕ
deriving DecidableEq

/-- The 600 ms grace window (`watchdogLimitMs`). -/
def watchdogLimit : ℚ := 600

/-- One frame of the watchdog (SpineCanvas.tsx lines 304-319): on an invisible
frame, start the timer if idle, else fire once the streak exceeds the grace
window and reset the timer; on a visible frame, reset the timer. -/
def watchdogStep (st : WatchdogState) (now : ℚ) (invisible : Bool) : WatchdogState :=
  if invisible then
    if st.start = 0 then ⟨now, st.fired⟩
    else if watchdogLimit < now - st.start then ⟨0, st.fired + 1⟩
    else st
  else ⟨0, st.fired⟩

/-- Run the watchdog over a list of frames `(timestamp, invisible)`. -/
def runWatchdog : WatchdogState → List (ℚ × Bool) → WatchdogState
  | st, [] => st
  | st, f :: fs => runWatchdog (watchdogStep st f.1 f.2) fs

/-- No contiguous run of invisible frames spans more than the grace window:
whenever a decomposition exhibits a block of consecutive invisible frames,
every timestamp in the block is within `watchdogLimit` of the block's first
timestamp. -/
def noLongRun (frames : List (ℚ × Bool)) : Prop :=
  ∀ pre f₀ rest post, frames = pre ++ (f₀ :: rest) ++ post →
    f₀.2 = true → (∀ f ∈ rest, f.2 = true) →
    ∀ g ∈ f₀ :: rest, g.1 - f₀.1 ≤ watchdogLimit

/-! Evaluation lemmas for the JavaScript-number operations. -/

@[simp] theorem jsIsFinite_fin (q : ℚ) : jsIsFinite (.fin q) = true := rfl

@[simp] theorem jsIsFinite_nan : jsIsFinite .nan = false := rfl

@[simp] theorem jsIsFinite_posInf : jsIsFinite .posInf = false := rfl

@[simp] theorem jsIsFinite_negInf : jsIsFinite .negInf = false := rfl

@[simp] theorem jsMin_fin_fin (a b : ℚ) : jsMin (.fin a) (.fin b) = .fin (min a b) := rfl

@[simp] theorem jsMax_fin_fin (a b : ℚ) : jsMax (.fin a) (.fin b) = .fin (max a b) := rfl

@[simp] theorem jsMin_posInf_fin (b : ℚ) : jsMin .posInf (.fin b) = .fin b := rfl

@[simp] theorem jsMax_negInf_fin (b : ℚ) : jsMax .negInf (.fin b) = .fin b := rfl

@[simp] theorem jsMin_nan_left (a : JsNum) : jsMin .nan a = .nan := by cases a <;> rfl

@[simp] theorem jsMin_nan_right (a : JsNum) : jsMin a .nan = .nan := by cases a <;> rfl

@[simp] theorem jsMax_nan_left (a : JsNum) : jsMax .nan a = .nan := by cases a <;> rfl

@[simp] theorem jsMax_nan_right (a : JsNum) : jsMax a .nan = .nan := by cases a <;> rfl

@[simp] theorem jsMin_negInf_left (a : JsNum) : jsMin .negInf a = if a = .nan then .nan else .negInf := by
  cases a <;> rfl

@[simp] theorem jsMax_posInf_left (a : JsNum) : jsMax .posInf a = if a = .nan then .nan else .posInf := by
  cases a <;> rfl

@[simp] theorem jsMin_negInf_right (a : JsNum) : jsMin a .negInf = if a = .nan then .nan else .negInf := by
  cases a <;> rfl

@[simp] theorem jsMax_posInf_right (a : JsNum) : jsMax a .posInf = if a = .nan then .nan else .posInf := by
  cases a <;> rfl

@[simp] theorem jsAdd_fin_fin (a b : ℚ) : jsAdd (.fin a) (.fin b) = .fin (a + b) := rfl

@[simp] theorem jsSub_fin_fin (a b : ℚ) : jsSub (.fin a) (.fin b) = .fin (a - b) := rfl

@[simp] theorem jsMul_fin_fin (a b : ℚ) : jsMul (.fin a) (.fin b) = .fin (a * b) := rfl

theorem jsDiv_fin_fin (a : ℚ) {b : ℚ} (hb : b ≠ 0) : jsDiv (.fin a) (.fin b) = .fin (a / b) := by
  simp [jsDiv, hb]

@[simp] theorem jsLt_fin_fin (a b : ℚ) : jsLt (.fin a) (.fin b) = decide (a < b) := rfl

@[simp] theorem jsGt_fin_fin (a b : ℚ) : jsGt (.fin a) (.fin b) = decide (b < a) := rfl

@[simp] theorem jsLt_fin_posInf (a : ℚ) : jsLt (.fin a) .posInf = true := rfl

@[simp] theorem jsLt_posInf (a : JsNum) : jsLt .posInf a = false := by cases a <;> rfl

@[simp] theorem jsLt_fin_negInf (a : ℚ) : jsLt (.fin a) .negInf = false := rfl

@[simp] theorem jsLt_negInf_fin (a : ℚ) : jsLt .negInf (.fin a) = true := rfl

@[simp] theorem jsLt_nan_left (a : JsNum) : jsLt .nan a = false := by cases a <;> rfl

@[simp] theorem jsLt_nan_right (a : JsNum) : jsLt a .nan = false := by cases a <;> rfl

@[simp] theorem jsGt_fin_negInf (a : ℚ) : jsGt (.fin a) .negInf = true := rfl

@[simp] theorem jsGt_negInf (a : JsNum) : jsGt .negInf a = false := by cases a <;> rfl

@[simp] theorem jsGt_fin_posInf (a : ℚ) : jsGt (.fin a) .posInf = false := rfl

@[simp] theorem jsGt_posInf_fin (a : ℚ) : jsGt .posInf (.fin a) = true := rfl

@[simp] theorem jsGt_nan_left (a : JsNum) : jsGt .nan a = false := by cases a <;> rfl

@[simp] theorem jsGt_nan_right (a : JsNum) : jsGt a .nan = false := by cases a <;> rfl

@[simp] theorem ptFinite_mk (x y : JsNum) : ptFinite ⟨x, y⟩ = (jsIsFinite x && jsIsFinite y) := rfl

theorem gbInvalid_fin (a b c d : ℚ) :
    gbInvalid ⟨.fin a, .fin b, .fin c, .fin d⟩ = (decide (c < a) || decide (d < b)) := rfl

theorem gbDefault_of_invalid {st : BState} (h : gbInvalid st = true) :
    gbDefault st = ⟨.fin (-100), .fin (-100), .fin 100, .fin 100⟩ := by
  simp [gbDefault, h]

theorem gbDefault_of_valid {st : BState} (h : gbInvalid st = false) : gbDefault st = st := by
  simp [gbDefault, h]

@[simp] theorem caDefault_fin (q : ℚ) (b c d : JsNum) :
    caDefault ⟨.fin q, b, c, d⟩ = ⟨.fin q, b, c, d⟩ := by
  rw [caDefault, if_neg (fun h => JsNum.noConfusion h)]

@[simp] theorem caDefault_nan (b c d : JsNum) : caDefault ⟨.nan, b, c, d⟩ = ⟨.nan, b, c, d⟩ := by
  rw [caDefault, if_neg (fun h => JsNum.noConfusion h)]

@[simp] theorem caDefault_negInf (b c d : JsNum) :
    caDefault ⟨.negInf, b, c, d⟩ = ⟨.negInf, b, c, d⟩ := by
  rw [caDefault, if_neg (fun h => JsNum.noConfusion h)]

@[simp] theorem caDefault_posInf (b c d : JsNum) :
    caDefault ⟨.posInf, b, c, d⟩ = ⟨.fin 0, .fin 0, .fin 1, .fin 1⟩ := by
  simp [caDefault]

/-! Structure of the `getBounds` fold. -/

theorem foldl_filter_gbPoint (pts : List Pt) (st : BState) :
    (pts.filter ptFinite).foldl gbPoint st =
      pts.foldl (fun s p => if ptFinite p then gbPoint s p else s) st := by
  induction pts generalizing st with
  | nil => rfl
  | cons p ps ih =>
    cases h : ptFinite p <;> simp [List.filter_cons, List.foldl, h, ih]

theorem foldl_gb_contributed (slots : List Attachment) (st : BState) :
    slots.foldl gbAttachment st = (contributed slots).foldl gbPoint st := by
  induction slots generalizing st with
  | nil => rfl
  | cons a rest ih =>
    cases a with
    | region pts =>
      simp [List.foldl, gbAttachment, contributed, contributedOf, List.foldl_append, ih]
    | mesh pts =>
      simp [List.foldl, gbAttachment, contributed, contributedOf, List.foldl_append, ih,
        foldl_filter_gbPoint]

theorem mem_allPoints_of_mem_contributed {p : Pt} :
    ∀ {slots : List Attachment}, p ∈ contributed slots → p ∈ allPoints slots := by
  intro slots
  induction slots with
  | nil => intro h; exact absurd h (List.not_mem_nil p)
  | cons a rest ih =>
    intro h
    cases a with
    | region pts =>
      rcases List.mem_append.mp h with h1 | h2
      · exact List.mem_append.mpr (Or.inl h1)
      · exact List.mem_append.mpr (Or.inr (ih h2))
    | mesh pts =>
      rcases List.mem_append.mp h with h1 | h2
      · exact List.mem_append.mpr (Or.inl (List.mem_of_mem_filter h1))
      · exact List.mem_append.mpr (Or.inr (ih h2))

theorem mem_finitePts {p : Pt} {slots : List Attachment} (h1 : p ∈ allPoints slots)
    (h2 : ptFinite p = true) : p ∈ finitePts slots :=
  List.mem_filter.mpr ⟨h1, h2⟩

/-! Poisoning: once a non-finite coordinate has entered the accumulator the
corresponding axis can never become valid again. -/

/-- The x-axis accumulator is irrecoverably non-finite. -/
def xPoisoned (st : BState) : Prop :=
  st.minX = .nan ∨ st.minX = .negInf ∨ st.maxX = .nan ∨ st.maxX = .posInf

/-- The y-axis accumulator is irrecoverably non-finite. -/
def yPoisoned (st : BState) : Prop :=
  st.minY = .nan ∨ st.minY = .negInf ∨ st.maxY = .nan ∨ st.maxY = .posInf

theorem xPoisoned_step (st : BState) (p : Pt) (h : xPoisoned st) : xPoisoned (gbPoint st p) := by
  rcases h with h | h | h | h
  · exact Or.inl (by simp [gbPoint, h])
  · by_cases hp : p.x = .nan
    · exact Or.inl (by simp [gbPoint, h, hp])
    · exact Or.inr (Or.inl (by simp [gbPoint, h, hp]))
  · exact Or.inr (Or.inr (Or.inl (by simp [gbPoint, h])))
  · by_cases hp : p.x = .nan
    · exact Or.inr (Or.inr (Or.inl (by simp [gbPoint, h, hp])))
    · exact Or.inr (Or.inr (Or.inr (by simp [gbPoint, h, hp])))

theorem yPoisoned_step (st : BState) (p : Pt) (h : yPoisoned st) : yPoisoned (gbPoint st p) := by
  rcases h with h | h | h | h
  · exact Or.inl (by simp [gbPoint, h])
  · by_cases hp : p.y = .nan
    · exact Or.inl (by simp [gbPoint, h, hp])
    · exact Or.inr (Or.inl (by simp [gbPoint, h, hp]))
  · exact Or.inr (Or.inr (Or.inl (by simp [gbPoint, h])))
  · by_cases hp : p.y = .nan
    · exact Or.inr (Or.inr (Or.inl (by simp [gbPoint, h, hp])))
    · exact Or.inr (Or.inr (Or.inr (by simp [gbPoint, h, hp])))

theorem poisoned_of_nonfinite (st : BState) (p : Pt) (h : ptFinite p = false) :
    xPoisoned (gbPoint st p) ∨ yPoisoned (gbPoint st p) := by
  rcases p with ⟨px, py⟩
  cases px with
  | nan => exact Or.inl (Or.inl (by simp [gbPoint]))
  | posInf =>
    by_cases hm : st.maxX = .nan
    · exact Or.inl (Or.inr (Or.inr (Or.inl (by simp [gbPoint, hm]))))
    · exact Or.inl (Or.inr (Or.inr (Or.inr (by simp [gbPoint, hm]))))
  | negInf =>
    by_cases hm : st.minX = .nan
    · exact Or.inl (Or.inl (by simp [gbPoint, hm]))
    · exact Or.inl (Or.inr (Or.inl (by simp [gbPoint, hm])))
  | fin qx =>
    right
    cases py with
    | nan => exact Or.inl (by simp [gbPoint])
    | posInf =>
      by_cases hm : st.maxY = .nan
      · exact Or.inr (Or.inr (Or.inl (by simp [gbPoint, hm])))
      · exact Or.inr (Or.inr (Or.inr (by simp [gbPoint, hm])))
    | negInf =>
      by_cases hm : st.minY = .nan
      · exact Or.inl (by simp [gbPoint, hm])
      · exact Or.inr (Or.inl (by simp [gbPoint, hm]))
    | fin qy => simp [ptFinite] at h

theorem foldl_poisoned (L : List Pt) (st : BState)
    (h : xPoisoned st ∨ yPoisoned st) :
    xPoisoned (L.foldl gbPoint st) ∨ yPoisoned (L.foldl gbPoint st) := by
  induction L generalizing st with
  | nil => exact h
  | cons p ps ih =>
    refine ih (gbPoint st p) ?_
    rcases h with h | h
    · exact Or.inl (xPoisoned_step st p h)
    · exact Or.inr (yPoisoned_step st p h)

theorem gbInvalid_of_poisoned {st : BState} (h : xPoisoned st ∨ yPoisoned st) :
    gbInvalid st = true := by
  rcases h with (h | h | h | h) | (h | h | h | h) <;> simp [gbInvalid, h]

theorem gbInvalid_of_no_finite {slots : List Attachment} (h : finitePts slots = []) :
    gbInvalid (slots.foldl gbAttachment bInit) = true := by
  rw [foldl_gb_contributed]
  cases hL : contributed slots with
  | nil => simp [List.foldl, gbInvalid, bInit]
  | cons p ps =>
    have hmem : p ∈ contributed slots := by rw [hL]; exact List.mem_cons_self p ps
    have hp : ptFinite p = false := by
      cases hc : ptFinite p with
      | false => rfl
      | true =>
        have : p ∈ finitePts slots := mem_finitePts (mem_allPoints_of_mem_contributed hmem) hc
        rw [h] at this
        exact absurd this (List.not_mem_nil p)
    exact gbInvalid_of_poisoned
      (by simpa [List.foldl] using foldl_poisoned ps (gbPoint bInit p) (poisoned_of_nonfinite bInit p hp))

/-! Folding finite points agrees with the rational union fold. -/

theorem foldl_gbPoint_fin (ps : List Pt) (hfin : ∀ p ∈ ps, ptFinite p = true) :
    ∀ a b c d : ℚ,
      ps.foldl gbPoint ⟨.fin a, .fin b, .fin c, .fin d⟩ =
        ⟨.fin ((ps.map qPt).foldl qStep ⟨a, b, c, d⟩).minX,
         .fin ((ps.map qPt).foldl qStep ⟨a, b, c, d⟩).minY,
         .fin ((ps.map qPt).foldl qStep ⟨a, b, c, d⟩).maxX,
         .fin ((ps.map qPt).foldl qStep ⟨a, b, c, d⟩).maxY⟩ := by
  induction ps with
  | nil => intro a b c d; rfl
  | cons p ps ih =>
    intro a b c d
    have hp : ptFinite p = true := hfin p (List.mem_cons_self p ps)
    rcases p with ⟨px, py⟩
    cases px <;> cases py <;> simp [ptFinite] at hp
    rename_i qx qy
    have hrest : ∀ p ∈ ps, ptFinite p = true :=
      fun p hmem => hfin p (List.mem_cons_of_mem _ hmem)
    simp [List.foldl, List.map, gbPoint, qPt, qOf, qStep]
    rw [ih hrest]

theorem qStep_le (b : QBox) (q : ℚ × ℚ) (h1 : b.minX ≤ b.maxX) (h2 : b.minY ≤ b.maxY) :
    (qStep b q).minX ≤ (qStep b q).maxX ∧ (qStep b q).minY ≤ (qStep b q).maxY := by
  constructor
  · exact le_trans (min_le_left _ _) (le_trans h1 (le_max_left _ _))
  · exact le_trans (min_le_left _ _) (le_trans h2 (le_max_left _ _))

theorem foldl_qStep_le (qs : List (ℚ × ℚ)) :
    ∀ b : QBox, b.minX ≤ b.maxX → b.minY ≤ b.maxY →
      (qs.foldl qStep b).minX ≤ (qs.foldl qStep b).maxX ∧
        (qs.foldl qStep b).minY ≤ (qs.foldl qStep b).maxY := by
  induction qs with
  | nil => intro b h1 h2; exact ⟨h1, h2⟩
  | cons q qs ih =>
    intro b h1 h2
    exact ih (qStep b q) (qStep_le b q h1 h2).1 (qStep_le b q h1 h2).2

theorem contributed_eq_finitePts (slots : List Attachment)
    (hreg : ∀ pts, Attachment.region pts ∈ slots → ∀ p ∈ pts, ptFinite p = true) :
    contributed slots = finitePts slots := by
  induction slots with
  | nil => rfl
  | cons a rest ih =>
    have hrest : ∀ pts, Attachment.region pts ∈ rest → ∀ p ∈ pts, ptFinite p = true :=
      fun pts hmem => hreg pts (List.mem_cons_of_mem a hmem)
    cases a with
    | region pts =>
      have hpts : pts.filter ptFinite = pts :=
        List.filter_eq_self.mpr (hreg pts (List.mem_cons_self _ _))
      simp [contributed, contributedOf, finitePts, allPoints, List.filter_append, hpts, ih hrest]
    | mesh pts =>
      simp [contributed, contributedOf, finitePts, allPoints, List.filter_append, ih hrest]

/-- C1 (amended): `getBounds` skips non-finite points only in mesh vertex
sets; region vertices are folded in unfiltered.  Provided every region vertex
is finite and at least one finite point exists, the returned extremes are
exactly the union bounding box over the finite points across all vertex sets
(non-finite mesh points being skipped). -/
theorem getBounds_union_of_finite_region (slots : List Attachment)
    (hreg : ∀ pts, Attachment.region pts ∈ slots → ∀ p ∈ pts, ptFinite p = true)
    (hne : finitePts slots ≠ []) :
    ∃ b : QBox, specFiniteUnion slots = some b ∧
      (getBounds slots).minX = .fin b.minX ∧ (getBounds slots).minY = .fin b.minY ∧
      (getBounds slots).maxX = .fin b.maxX ∧ (getBounds slots).maxY = .fin b.maxY := by
  obtain ⟨p, ps, hcons⟩ : ∃ p ps, finitePts slots = p :: ps := by
    cases h : finitePts slots with
    | nil => exact absurd h hne
    | cons p ps => exact ⟨p, ps, rfl⟩
  have hall : ∀ q ∈ finitePts slots, ptFinite q = true := fun q hq => List.of_mem_filter hq
  have hps : ∀ q ∈ ps, ptFinite q = true := fun q hq =>
    hall q (by rw [hcons]; exact List.mem_cons_of_mem p hq)
  have hp : ptFinite p = true := hall p (by rw [hcons]; exact List.mem_cons_self p ps)
  rcases p with ⟨px, py⟩
  cases px <;> cases py <;> simp [ptFinite] at hp
  rename_i qx qy
  have hstep : gbPoint bInit ⟨.fin qx, .fin qy⟩ = ⟨.fin qx, .fin qy, .fin qx, .fin qy⟩ := by
    simp [gbPoint, bInit]
  have hfold : slots.foldl gbAttachment bInit =
      ⟨.fin ((ps.map qPt).foldl qStep ⟨qx, qy, qx, qy⟩).minX,
       .fin ((ps.map qPt).foldl qStep ⟨qx, qy, qx, qy⟩).minY,
       .fin ((ps.map qPt).foldl qStep ⟨qx, qy, qx, qy⟩).maxX,
       .fin ((ps.map qPt).foldl qStep ⟨qx, qy, qx, qy⟩).maxY⟩ := by
    rw [foldl_gb_contributed, contributed_eq_finitePts slots hreg, hcons]
    rw [List.foldl_cons, hstep]
    exact foldl_gbPoint_fin ps hps qx qy qx qy
  have hord := foldl_qStep_le (ps.map qPt) ⟨qx, qy, qx, qy⟩ le_rfl le_rfl
  have hinv : gbInvalid
      ⟨.fin ((ps.map qPt).foldl qStep ⟨qx, qy, qx, qy⟩).minX,
       .fin ((ps.map qPt).foldl qStep ⟨qx, qy, qx, qy⟩).minY,
       .fin ((ps.map qPt).foldl qStep ⟨qx, qy, qx, qy⟩).maxX,
       .fin ((ps.map qPt).foldl qStep ⟨qx, qy, qx, qy⟩).maxY⟩ = false := by
    rw [gbInvalid_fin]
    simp only [Bool.or_eq_false_iff, decide_eq_false_iff_not, not_lt]
    exact ⟨hord.1, hord.2⟩
  refine ⟨(ps.map qPt).foldl qStep ⟨qx, qy, qx, qy⟩, ?_, ?_, ?_, ?_, ?_⟩
  · simp [specFiniteUnion, hcons, qPt, qOf]
  · simp [getBounds, hfold, gbDefault_of_valid hinv]
  · simp [getBounds, hfold, gbDefault_of_valid hinv]
  · simp [getBounds, hfold, gbDefault_of_valid hinv]
  · simp [getBounds, hfold, gbDefault_of_valid hinv]

theorem jsIsFinite_iff (x : JsNum) : jsIsFinite x = true ↔ ∃ q, x = .fin q := by
  cases x <;> simp [jsIsFinite]

/-- Whatever the input, `getBounds` returns finite extremes with `minX ≤ maxX`
and `minY ≤ maxY`, and its width, height and centre are computed from them by
the 50-clamp formulas. -/
theorem getBounds_fin (slots : List Attachment) :
    ∃ mx my Mx My : ℚ, mx ≤ Mx ∧ my ≤ My ∧
      (getBounds slots).minX = .fin mx ∧ (getBounds slots).minY = .fin my ∧
      (getBounds slots).maxX = .fin Mx ∧ (getBounds slots).maxY = .fin My ∧
      (getBounds slots).w = .fin (max 50 (Mx - mx)) ∧
      (getBounds slots).h = .fin (max 50 (My - my)) ∧
      (getBounds slots).cx = .fin (mx + max 50 (Mx - mx) / 2) ∧
      (getBounds slots).cy = .fin (my + max 50 (My - my) / 2) := by
  cases hInv : gbInvalid (slots.foldl gbAttachment bInit) with
  | true =>
    refine ⟨-100, -100, 100, 100, by norm_num, by norm_num, ?_, ?_, ?_, ?_, ?_, ?_, ?_, ?_⟩ <;>
      simp [getBounds, gbDefault_of_invalid hInv, jsDiv_fin_fin _ (two_ne_zero)]
  | false =>
    have hInv' := hInv
    simp only [gbInvalid, Bool.or_eq_false_iff, Bool.not_eq_false'] at hInv'
    obtain ⟨⟨⟨⟨⟨hfx, hfy⟩, hfX⟩, hfY⟩, hg1⟩, hg2⟩ := hInv'
    obtain ⟨mx, hmx⟩ := (jsIsFinite_iff _).mp hfx
    obtain ⟨my, hmy⟩ := (jsIsFinite_iff _).mp hfy
    obtain ⟨Mx, hMx⟩ := (jsIsFinite_iff _).mp hfX
    obtain ⟨My, hMy⟩ := (jsIsFinite_iff _).mp hfY
    rw [hmx, hMx] at hg1
    rw [hmy, hMy] at hg2
    simp only [jsGt_fin_fin, decide_eq_false_iff_not, not_lt] at hg1 hg2
    refine ⟨mx, my, Mx, My, hg1, hg2, ?_, ?_, ?_, ?_, ?_, ?_, ?_, ?_⟩ <;>
      simp [getBounds, gbDefault_of_valid hInv, hmx, hmy, hMx, hMy,
        jsDiv_fin_fin _ (two_ne_zero)]

/-! Grid-layout helpers. -/

theorem mapWithIndex_length (f : ℕ → List Attachment → GridPlacement) :
    ∀ (k : ℕ) (l : List (List Attachment)), (mapWithIndex f k l).length = l.length := by
  intro k l
  induction l generalizing k with
  | nil => rfl
  | cons s rest ih => simp [mapWithIndex, ih]

theorem mapWithIndex_get? (f : ℕ → List Attachment → GridPlacement) :
    ∀ (l : List (List Attachment)) (k i : ℕ),
      (mapWithIndex f k l).get? i = (l.get? i).map (f (k + i)) := by
  intro l
  induction l with
  | nil => intro k i; simp [mapWithIndex]
  | cons s rest ih =>
    intro k i
    cases i with
    | zero => simp [mapWithIndex]
    | succ j =>
      have hidx : k + (j + 1) = (k + 1) + j := by omega
      simp only [mapWithIndex, List.get?_cons_succ, hidx, ih (k + 1) j]

theorem gridCols_le_sq (n : ℕ) : n ≤ gridCols n * gridCols n := by
  rw [gridCols]
  split
  next h => exact Nat.le_of_eq h.symm
  next h => exact Nat.le_of_lt (Nat.lt_succ_sqrt n)

theorem gridCols_min (n c : ℕ) (hc : n ≤ c * c) : gridCols n ≤ c := by
  have hs : Nat.sqrt n ≤ c := by
    have h := Nat.sqrt_le_sqrt hc
    rwa [Nat.sqrt_eq] at h
  rw [gridCols]
  split
  next => exact hs
  next h =>
    have hne : n ≠ c * c := fun he => h (by rw [he, Nat.sqrt_eq])
    have hlt : Nat.sqrt n < c := Nat.sqrt_lt.mpr (lt_of_le_of_ne hc hne)
    omega

/-! Render-fallback controller helpers. -/

theorem runUnhealthy_fallback (ea : Bool) (n : ℕ) : runUnhealthy ea true n = (true, 0) := by
  induction n with
  | zero => rfl
  | succ n ih => simp [runUnhealthy, handleWebglError, ih]

theorem runUnhealthy_disabled (fp : Bool) (n : ℕ) : runUnhealthy false fp n = (fp, 0) := by
  induction n with
  | zero => rfl
  | succ n ih => simp [runUnhealthy, handleWebglError, ih]

theorem runUnhealthy_le_one (ea fp : Bool) (n : ℕ) : (runUnhealthy ea fp n).2 ≤ 1 := by
  cases fp with
  | true => simp [runUnhealthy_fallback]
  | false =>
    cases ea with
    | false => simp [runUnhealthy_disabled]
    | true =>
      cases n with
      | zero => simp [runUnhealthy]
      | succ n => simp [runUnhealthy, handleWebglError, runUnhealthy_fallback]

/-! Watchdog helpers. -/

theorem noLongRun_of_pairs (frames : List (ℚ × Bool))
    (h : ∀ f ∈ frames, ∀ g ∈ frames, g.1 - f.1 ≤ watchdogLimit) : noLongRun frames := by
  intro pre f₀ rest post hfr hf₀ hrest g hg
  have hmem₀ : f₀ ∈ frames := by rw [hfr]; simp
  have hmemg : g ∈ frames := by
    rw [hfr]
    rcases List.mem_cons.mp hg with h1 | h1
    · subst h1; simp
    · simp [h1]
  exact h f₀ hmem₀ g hmemg

theorem runWatchdog_no_fire :
    ∀ (frames : List (ℚ × Bool)) (s : WatchdogState),
      (∀ f ∈ frames, 0 < f.1) → noLongRun frames →
      (s.start = 0 ∨ (s.start ≠ 0 ∧
        ∀ mid post, frames = mid ++ post → (∀ f ∈ mid, f.2 = true) →
          ∀ g ∈ mid, g.1 - s.start ≤ watchdogLimit)) →
      (runWatchdog s frames).fired = s.fired := by
  intro frames
  induction frames with
  | nil => intro s _ _ _; rfl
  | cons f fs ih =>
    intro s hpos hnlr hinv
    rcases f with ⟨t, inv⟩
    have hposr : ∀ f ∈ fs, 0 < f.1 := fun f hf => hpos f (List.mem_cons_of_mem _ hf)
    have hnlrr : noLongRun fs := by
      intro pre f₀ rest post hfr hf₀ hrest g hg
      exact hnlr ((t, inv) :: pre) f₀ rest post (by simp [hfr]) hf₀ hrest g hg
    cases inv with
    | false =>
      have hstep : watchdogStep s t false = ⟨0, s.fired⟩ := by simp [watchdogStep]
      rw [runWatchdog, hstep]
      exact ih ⟨0, s.fired⟩ hposr hnlrr (Or.inl rfl)
    | true =>
      by_cases h0 : s.start = 0
      · have hstep : watchdogStep s t true = ⟨t, s.fired⟩ := by simp [watchdogStep, h0]
        rw [runWatchdog, hstep]
        refine ih ⟨t, s.fired⟩ hposr hnlrr (Or.inr ⟨?_, ?_⟩)
        · exact ne_of_gt (hpos (t, true) (List.mem_cons_self _ _))
        · intro mid post hfs hmid g hg
          exact hnlr [] (t, true) mid post (by simp [hfs]) rfl hmid g
            (List.mem_cons_of_mem _ hg)
      · rcases hinv with h | ⟨hne, hbound⟩
        · exact absurd h h0
        have hnofire : ¬ (watchdogLimit < t - s.start) :=
          not_lt.mpr (hbound [(t, true)] fs rfl (by simp) (t, true) (by simp))
        have hstep : watchdogStep s t true = s := by
          simp [watchdogStep, h0, hnofire]
        rw [runWatchdog, hstep]
        refine ih s hposr hnlrr (Or.inr ⟨hne, ?_⟩)
        intro mid post hfs hmid g hg
        exact hbound ((t, true) :: mid) post (by simp [hfs]) (by
          intro f hf
          rcases List.mem_cons.mp hf with h1 | h1
          · subst h1; rfl
          · exact hmid f h1) g (List.mem_cons_of_mem _ hg)

/-! Claim theorems, counterexamples and witnesses. -/

/-- C1 (counterexample): a region vertex set containing the non-finite point
(NaN, NaN) next to the finite points (0,0) and (1,1) drives `getBounds` to
the default box `{-100,-100,100,100}`, while the union box over the finite
points is `{0,0,1,1}` — so a non-finite point does influence the extremes,
refuting the claim as stated. -/
theorem getBounds_nonfinite_region_influences :
    getBounds [.region [⟨.fin 0, .fin 0⟩, ⟨.fin 1, .fin 1⟩, ⟨.nan, .nan⟩]] =
      ⟨.fin 200, .fin 200, .fin 0, .fin 0, .fin (-100), .fin (-100), .fin 100, .fin 100⟩ ∧
    specFiniteUnion [.region [⟨.fin 0, .fin 0⟩, ⟨.fin 1, .fin 1⟩, ⟨.nan, .nan⟩]] =
      some ⟨0, 0, 1, 1⟩ ∧
    (getBounds [.region [⟨.fin 0, .fin 0⟩, ⟨.fin 1, .fin 1⟩, ⟨.nan, .nan⟩]]).maxX ≠
      JsNum.fin 1 := by
  have hst : List.foldl gbAttachment bInit
      [.region [⟨.fin 0, .fin 0⟩, ⟨.fin 1, .fin 1⟩, ⟨.nan, .nan⟩]] =
      (⟨.nan, .nan, .nan, .nan⟩ : BState) := by
    simp [gbAttachment, gbPoint, bInit, List.foldl]
  have hd : gbDefault (⟨.nan, .nan, .nan, .nan⟩ : BState) =
      ⟨.fin (-100), .fin (-100), .fin 100, .fin 100⟩ :=
    gbDefault_of_invalid (by simp [gbInvalid])
  have h1 : getBounds [.region [⟨.fin 0, .fin 0⟩, ⟨.fin 1, .fin 1⟩, ⟨.nan, .nan⟩]] =
      ⟨.fin 200, .fin 200, .fin 0, .fin 0, .fin (-100), .fin (-100), .fin 100, .fin 100⟩ := by
    norm_num [getBounds, hst, hd, jsDiv_fin_fin _ (two_ne_zero), min_def, max_def]
  refine ⟨h1, ?_, ?_⟩
  · simp [specFiniteUnion, finitePts, allPoints, qPt, qOf, qStep, List.filter, min_def, max_def]
  · rw [h1]
    simp

/-- C1 (witness): the amended theorem applied to one all-finite region and a
mesh with one non-finite vertex. -/
theorem getBounds_union_of_finite_region_witness :
    (∀ pts, Attachment.region pts ∈
        [Attachment.region [⟨.fin 0, .fin 0⟩], .mesh [⟨.fin 2, .fin 3⟩, ⟨.nan, .fin 9⟩]] →
        ∀ p ∈ pts, ptFinite p = true) ∧
    finitePts [Attachment.region [⟨.fin 0, .fin 0⟩], .mesh [⟨.fin 2, .fin 3⟩, ⟨.nan, .fin 9⟩]] ≠ [] ∧
    (∃ b : QBox,
      specFiniteUnion [Attachment.region [⟨.fin 0, .fin 0⟩],
        .mesh [⟨.fin 2, .fin 3⟩, ⟨.nan, .fin 9⟩]] = some b ∧
      (getBounds [Attachment.region [⟨.fin 0, .fin 0⟩],
        .mesh [⟨.fin 2, .fin 3⟩, ⟨.nan, .fin 9⟩]]).minX = .fin b.minX ∧
      (getBounds [Attachment.region [⟨.fin 0, .fin 0⟩],
        .mesh [⟨.fin 2, .fin 3⟩, ⟨.nan, .fin 9⟩]]).minY = .fin b.minY ∧
      (getBounds [Attachment.region [⟨.fin 0, .fin 0⟩],
        .mesh [⟨.fin 2, .fin 3⟩, ⟨.nan, .fin 9⟩]]).maxX = .fin b.maxX ∧
      (getBounds [Attachment.region [⟨.fin 0, .fin 0⟩],
        .mesh [⟨.fin 2, .fin 3⟩, ⟨.nan, .fin 9⟩]]).maxY = .fin b.maxY) := by
  refine ⟨?_, ?_, ?_⟩
  · intro pts hmem
    simp at hmem
    subst hmem
    decide
  · decide
  · exact getBounds_union_of_finite_region
      [Attachment.region [⟨.fin 0, .fin 0⟩], .mesh [⟨.fin 2, .fin 3⟩, ⟨.nan, .fin 9⟩]]
      (by intro pts hmem; simp at hmem; subst hmem; decide)
      (by decide)

/-- C2 (counterexample): on empty input `computeAABB` returns the box
`{0,0,1,1}`, not the documented default `{-100,-100,100,100}` — refuting the
claim for the `computeAABB` realisation of `computeBounds`. -/
theorem computeAABB_empty_not_documented_default :
    computeAABB [] = ⟨.fin 0, .fin 0, .fin 1, .fin 1, .fin 1, .fin 1⟩ ∧
    (computeAABB []).minX ≠ JsNum.fin (-100) ∧
    (computeAABB []).maxX ≠ JsNum.fin 100 := by
  have h : computeAABB [] = ⟨.fin 0, .fin 0, .fin 1, .fin 1, .fin 1, .fin 1⟩ := by
    norm_num [computeAABB, bInit, List.foldl]
  refine ⟨h, ?_, ?_⟩ <;> rw [h] <;> simp

/-- C2 (amended): for every input with zero finite points, `getBounds`
returns exactly the documented default box `{-100,-100,100,100}` (with the
derived width 200, height 200 and centre (0,0)); the `computeAABB` variant
instead falls back to `{0,0,1,1}` (shown here on the empty input). -/
theorem getBounds_default_on_no_finite (slots : List Attachment)
    (h : finitePts slots = []) :
    getBounds slots =
      ⟨.fin 200, .fin 200, .fin 0, .fin 0, .fin (-100), .fin (-100), .fin 100, .fin 100⟩ ∧
    computeAABB [] = ⟨.fin 0, .fin 0, .fin 1, .fin 1, .fin 1, .fin 1⟩ := by
  constructor
  · have hInv := gbInvalid_of_no_finite h
    norm_num [getBounds, gbDefault_of_invalid hInv, jsDiv_fin_fin _ (two_ne_zero), min_def, max_def]
  · norm_num [computeAABB, bInit, List.foldl]

/-- C2 (witness): the amended theorem applied to an input whose only points
are non-finite. -/
theorem getBounds_default_on_no_finite_witness :
    finitePts [Attachment.mesh [⟨.nan, .fin 1⟩, ⟨.posInf, .negInf⟩], .region []] = [] ∧
    (getBounds [Attachment.mesh [⟨.nan, .fin 1⟩, ⟨.posInf, .negInf⟩], .region []] =
      ⟨.fin 200, .fin 200, .fin 0, .fin 0, .fin (-100), .fin (-100), .fin 100, .fin 100⟩ ∧
    computeAABB [] = ⟨.fin 0, .fin 0, .fin 1, .fin 1, .fin 1, .fin 1⟩) :=
  ⟨by decide,
   getBounds_default_on_no_finite
     [Attachment.mesh [⟨.nan, .fin 1⟩, ⟨.posInf, .negInf⟩], .region []] (by decide)⟩

/-- C3 (counterexample): the SkeletonBounds `fitCamera` variant applies no
clamp; at the degenerate bounds (0,0,0,0) in a 400×400 viewport with its
default padding 1.1 it returns zoom 11/4000000000, far below the 0.005 lower
zoom limit — refuting "zoom always lies within [minZoom, maxZoom]" for that
variant. -/
theorem fitCameraSB_zoom_below_min :
    (fitCameraSB ⟨0, 0, 0, 0⟩ 400 400 (11/10)).zoom = 11/4000000000 ∧
    ¬ (1/200 ≤ (fitCameraSB ⟨0, 0, 0, 0⟩ 400 400 (11/10)).zoom) := by
  have h : (fitCameraSB ⟨0, 0, 0, 0⟩ 400 400 (11/10)).zoom = 11/4000000000 := by
    norm_num [fitCameraSB, getBoundsSB, min_def, max_def]
  exact ⟨h, by rw [h]; norm_num⟩

/-- C3 (amended): the primary (manual-AABB) `fitCamera` returns, for every
bounds input and every positive viewport, the zoom
`clamp(max(w·padding/viewport.w, h·padding/viewport.h), 0.005, 5)` where `w`
and `h` are the bounds extents clamped below at 100, so its zoom always lies
in `[0.005, 5]`; the SkeletonBounds variant applies no clamp. -/
theorem fitCamera_zoom_clamped (slots : List Attachment) (cssW cssH padding : ℚ)
    (hW : 0 < cssW) (hH : 0 < cssH) :
    ∃ w h z : ℚ,
      (getBounds slots).w = .fin w ∧ (getBounds slots).h = .fin h ∧
      (fitCamera slots cssW cssH padding).zoom = .fin z ∧
      z = min 5 (max (1/200)
        (max (max 100 w * padding / cssW) (max 100 h * padding / cssH))) ∧
      1/200 ≤ z ∧ z ≤ 5 := by
  obtain ⟨mx, my, Mx, My, _, _, _, _, _, _, hw, hh, _, _⟩ := getBounds_fin slots
  refine ⟨max 50 (Mx - mx), max 50 (My - my),
    min 5 (max (1/200)
      (max (max 100 (max 50 (Mx - mx)) * padding / cssW)
        (max 100 (max 50 (My - my)) * padding / cssH))),
    hw, hh, ?_, rfl, ?_, ?_⟩
  · simp [fitCamera, hw, hh, jsDiv_fin_fin _ (ne_of_gt hW), jsDiv_fin_fin _ (ne_of_gt hH)]
  · exact le_min (by norm_num) (le_max_left _ _)
  · exact min_le_left _ _

/-- C3 (witness): the amended theorem at the empty input in a 400×400
viewport with the source's default padding 1.5. -/
theorem fitCamera_zoom_clamped_witness :
    (0 : ℚ) < 400 ∧
    (∃ w h z : ℚ,
      (getBounds []).w = .fin w ∧ (getBounds []).h = .fin h ∧
      (fitCamera [] 400 400 (3/2)).zoom = .fin z ∧
      z = min 5 (max (1/200)
        (max (max 100 w * (3/2) / 400) (max 100 h * (3/2) / 400))) ∧
      1/200 ≤ z ∧ z ≤ 5) :=
  ⟨by norm_num, fitCamera_zoom_clamped [] 400 400 (3/2) (by norm_num) (by norm_num)⟩

/-- C4 (confirmed): `layoutGrid` computes `cols = ceil(sqrt N)` (the least
`c` with `N ≤ c²`) and `rows = ceil(N/cols)` from the count alone, assigns
shape `i` to cell `(i mod cols, i div cols)` with cell size
`viewport/(cols, rows)`, and scales each shape by
`min(cellW/shapeW, cellH/shapeH)·0.9` (extents clamped below at 1); on the
spec's example the two shapes receive scales 18 and 9 in 200×400 cells. -/
theorem layoutGrid_grid_spec (shapes : List (List Attachment)) (W H : ℚ) (i : ℕ)
    (h0 : shapes ≠ []) :
    shapes.length ≤ gridCols shapes.length * gridCols shapes.length ∧
    (∀ c, shapes.length ≤ c * c → gridCols shapes.length ≤ c) ∧
    gridRows shapes.length =
      (shapes.length + gridCols shapes.length - 1) / gridCols shapes.length ∧
    (layoutGrid shapes W H).length = shapes.length ∧
    (layoutGrid shapes W H).get? i = (shapes.get? i).map
      (placeOne (gridCols shapes.length) (W / (gridCols shapes.length : ℚ))
        (H / (gridRows shapes.length : ℚ)) i) ∧
    (∀ cols cw ch j s,
      (placeOne cols cw ch j s).scaleX =
        jsMul (jsMin (jsDiv (.fin cw) (jsMax (computeAABB s).width (.fin 1)))
          (jsDiv (.fin ch) (jsMax (computeAABB s).height (.fin 1)))) (.fin (9/10)) ∧
      (placeOne cols cw ch j s).x =
        jsSub (.fin (((j % cols : ℕ) : ℚ) * cw + cw / 2))
          (jsMul (jsAdd (computeAABB s).minX
            (jsDiv (jsMax (computeAABB s).width (.fin 1)) (.fin 2)))
            (placeOne cols cw ch j s).scaleX) ∧
      (placeOne cols cw ch j s).y =
        jsSub (.fin (((j / cols : ℕ) : ℚ) * ch + ch / 2))
          (jsMul (jsAdd (computeAABB s).minY
            (jsDiv (jsMax (computeAABB s).height (.fin 1)) (.fin 2)))
            (placeOne cols cw ch j s).scaleX)) ∧
    layoutGrid [[.mesh [⟨.fin 0, .fin 0⟩, ⟨.fin 10, .fin 10⟩]],
        [.mesh [⟨.fin 0, .fin 0⟩, ⟨.fin 20, .fin 5⟩]]] 400 400 =
      [⟨.fin 18, .fin 18, .fin 10, .fin 110⟩,
       ⟨.fin 9, .fin 9, .fin 210, .fin (355/2)⟩] ∧
    gridCols 2 = 2 ∧ gridRows 2 = 1 ∧
    (400 : ℚ) / ((gridCols 2 : ℕ) : ℚ) = 200 ∧ (400 : ℚ) / ((gridRows 2 : ℕ) : ℚ) = 400 := by
  have hcols2 : gridCols 2 = 2 := by norm_num [gridCols]
  have hrows2 : gridRows 2 = 1 := by norm_num [gridRows, gridCols]
  have hlen : shapes.length ≠ 0 := fun hz => h0 (List.length_eq_zero.mp hz)
  refine ⟨gridCols_le_sq shapes.length, fun c => gridCols_min shapes.length c, rfl, ?_, ?_,
    fun cols cw ch j s => ⟨rfl, rfl, rfl⟩, ?_, hcols2, hrows2, ?_, ?_⟩
  · rw [layoutGrid, if_neg hlen]
    exact mapWithIndex_length _ 0 shapes
  · rw [layoutGrid, if_neg hlen, mapWithIndex_get?]
    simp
  · norm_num [layoutGrid, mapWithIndex, placeOne, hcols2, hrows2, computeAABB, caAttachment,
      caPoint, bInit, List.foldl, jsDiv_fin_fin, min_def, max_def]
  · rw [hcols2]; norm_num
  · rw [hrows2]; norm_num

/-- C4 (witness): the grid theorem applied to the spec's two-shape example at
index 0. -/
theorem layoutGrid_grid_spec_witness :
    ([[.mesh [⟨.fin 0, .fin 0⟩, ⟨.fin 10, .fin 10⟩]],
      [.mesh [⟨.fin 0, .fin 0⟩, ⟨.fin 20, .fin 5⟩]]] : List (List Attachment)) ≠ [] ∧
    (layoutGrid [[.mesh [⟨.fin 0, .fin 0⟩, ⟨.fin 10, .fin 10⟩]],
        [.mesh [⟨.fin 0, .fin 0⟩, ⟨.fin 20, .fin 5⟩]]] 400 400).length = 2 :=
  ⟨by simp,
   (layoutGrid_grid_spec [[.mesh [⟨.fin 0, .fin 0⟩, ⟨.fin 10, .fin 10⟩]],
      [.mesh [⟨.fin 0, .fin 0⟩, ⟨.fin 20, .fin 5⟩]]] 400 400 0 (by simp)).2.2.2.1⟩

/-- C5 (confirmed): the render-fallback state is monotonic within one mount
lifecycle: it starts in Primary (`forcePlayer = false`), unhealthy signals in
Fallback are no-ops with no notification, at most one transition happens per
lifecycle, the first unhealthy signal of a fresh auto-fallback-enabled
lifecycle transitions exactly once, and only a fresh lifecycle (a new fold
from the initial state) re-arms the transition; `effectiveMode` maps the
Fallback state to the Player backend and the Primary state to the requested
mode. -/
theorem fallback_state_monotonic (ea : Bool) (n : ℕ) :
    initialForcePlayer = false ∧
    runUnhealthy ea true n = (true, 0) ∧
    (∀ fp, (runUnhealthy ea fp n).2 ≤ 1) ∧
    runUnhealthy true initialForcePlayer (n + 1) = (true, 1) ∧
    effectiveMode RenderMode.webgl true true = RenderMode.player ∧
    (∀ rm e, effectiveMode rm e false = rm) := by
  refine ⟨rfl, runUnhealthy_fallback ea n, fun fp => runUnhealthy_le_one ea fp n, ?_, rfl, ?_⟩
  · simp [initialForcePlayer, runUnhealthy, handleWebglError, runUnhealthy_fallback]
  · intro rm e
    simp [effectiveMode]

/-- C6 (confirmed): starting from the idle state, the watchdog fires only if
some contiguous invisible streak exceeds the 600 ms grace window — on any
frame sequence with positive timestamps in which no invisible run spans more
than 600 ms it fires zero times; a visible frame always resets the timer to
zero, and the first invisible frame of a streak starts the timer at that
frame's timestamp. -/
theorem watchdog_debounce (frames : List (ℚ × Bool))
    (hpos : ∀ f ∈ frames, 0 < f.1) (hnlr : noLongRun frames) :
    (runWatchdog ⟨0, 0⟩ frames).fired = 0 ∧
    (∀ st now, watchdogStep st now false = ⟨0, st.fired⟩) ∧
    (∀ fired now, watchdogStep ⟨0, fired⟩ now true = ⟨now, fired⟩) := by
  refine ⟨runWatchdog_no_fire frames ⟨0, 0⟩ hpos hnlr (Or.inl rfl), ?_, ?_⟩
  · intro st now; simp [watchdogStep]
  · intro fired now; simp [watchdogStep]

/-- C6 (witness): two invisible frames 200 ms apart — within the grace
window — produce zero firings. -/
theorem watchdog_debounce_witness :
    (∀ f ∈ [((100 : ℚ), true), (300, true)], 0 < f.1) ∧
    noLongRun [((100 : ℚ), true), (300, true)] ∧
    ((runWatchdog ⟨0, 0⟩ [((100 : ℚ), true), (300, true)]).fired = 0 ∧
     (∀ st now, watchdogStep st now false = ⟨0, st.fired⟩) ∧
     (∀ fired now, watchdogStep ⟨0, fired⟩ now true = ⟨now, fired⟩)) := by
  have h1 : ∀ f ∈ [((100 : ℚ), true), (300, true)], 0 < f.1 := by
    intro f hf
    fin_cases hf <;> norm_num
  have h2 : noLongRun [((100 : ℚ), true), (300, true)] := by
    apply noLongRun_of_pairs
    intro f hf g hg
    fin_cases hf <;> fin_cases hg <;> norm_num [watchdogLimit]
  exact ⟨h1, h2, watchdog_debounce [((100 : ℚ), true), (300, true)] h1 h2⟩

/-- C7 (counterexample): for a single finite point (3,4) the bounds are the
degenerate box [3,3]×[4,4]; `getBounds` clamps the extent to 50 and returns
centre x `3 + 25 = 28`, which `fitCamera` passes through — not the arithmetic
midpoint 3 of the bounds, refuting the midpoint claim. -/
theorem fitCamera_center_not_midpoint :
    (fitCamera [.mesh [⟨.fin 3, .fin 4⟩]] 400 400 (3/2)).centerX = .fin 28 ∧
    (getBounds [.mesh [⟨.fin 3, .fin 4⟩]]).minX = .fin 3 ∧
    (getBounds [.mesh [⟨.fin 3, .fin 4⟩]]).maxX = .fin 3 ∧
    (28 : ℚ) ≠ (3 + 3) / 2 := by
  have hst : List.foldl gbAttachment bInit [.mesh [⟨.fin 3, .fin 4⟩]] =
      (⟨.fin 3, .fin 4, .fin 3, .fin 4⟩ : BState) := by
    simp [gbAttachment, gbPoint, bInit, List.foldl]
  have hd : gbDefault (⟨.fin 3, .fin 4, .fin 3, .fin 4⟩ : BState) =
      ⟨.fin 3, .fin 4, .fin 3, .fin 4⟩ :=
    gbDefault_of_valid (by simp [gbInvalid])
  refine ⟨?_, ?_, ?_, by norm_num⟩ <;>
    norm_num [fitCamera, getBounds, hst, hd, jsDiv_fin_fin _ (two_ne_zero), min_def, max_def]

/-- C7 (amended): `fitCamera` passes the `getBounds` centre through
unchanged; that centre is `(minX + max(50, width)/2, minY + max(50, height)/2)`,
which coincides with the arithmetic midpoint of the bounds exactly when the
extent is at least 50 on the corresponding axis (in particular for the
defaulted box, whose extents are 200). -/
theorem fitCamera_center_formula (slots : List Attachment) (cssW cssH padding : ℚ) :
    (fitCamera slots cssW cssH padding).centerX = (getBounds slots).cx ∧
    (fitCamera slots cssW cssH padding).centerY = (getBounds slots).cy ∧
    ∃ mx my Mx My : ℚ,
      (getBounds slots).minX = .fin mx ∧ (getBounds slots).minY = .fin my ∧
      (getBounds slots).maxX = .fin Mx ∧ (getBounds slots).maxY = .fin My ∧
      (getBounds slots).cx = .fin (mx + max 50 (Mx - mx) / 2) ∧
      (getBounds slots).cy = .fin (my + max 50 (My - my) / 2) ∧
      (50 ≤ Mx - mx → (getBounds slots).cx = .fin ((mx + Mx) / 2)) ∧
      (50 ≤ My - my → (getBounds slots).cy = .fin ((my + My) / 2)) := by
  obtain ⟨mx, my, Mx, My, h1, h2, hmx, hmy, hMx, hMy, hw, hh, hcx, hcy⟩ := getBounds_fin slots
  refine ⟨rfl, rfl, mx, my, Mx, My, hmx, hmy, hMx, hMy, hcx, hcy, ?_, ?_⟩
  · intro hge
    rw [hcx, max_eq_right hge]
    congr 1
    ring
  · intro hge
    rw [hcy, max_eq_right hge]
    congr 1
    ring

/-- C7 (witness): the amended centre formula instantiated at the defaulted
box (empty input), where the centre is the true midpoint (0,0). -/
theorem fitCamera_center_formula_witness :
    (fitCamera [] 400 400 (3/2)).centerX = (getBounds []).cx ∧
    (fitCamera [] 400 400 (3/2)).centerY = (getBounds []).cy ∧
    ∃ mx my Mx My : ℚ,
      (getBounds []).minX = .fin mx ∧ (getBounds []).minY = .fin my ∧
      (getBounds []).maxX = .fin Mx ∧ (getBounds []).maxY = .fin My ∧
      (getBounds []).cx = .fin (mx + max 50 (Mx - mx) / 2) ∧
      (getBounds []).cy = .fin (my + max 50 (My - my) / 2) ∧
      (50 ≤ Mx - mx → (getBounds []).cx = .fin ((mx + Mx) / 2)) ∧
      (50 ≤ My - my → (getBounds []).cy = .fin ((my + My) / 2)) :=
  fitCamera_center_formula [] 400 400 (3/2)

/-- C8 (counterexample): the WebGL error handler performs the
Primary-to-Fallback transition (one `setForcePlayer` notification) but its
return value is `undefined` (`none`), not a boolean stating whether the
transition occurred — refuting the returns-a-boolean part of the claim. -/
theorem handleWebglError_returns_no_boolean :
    (handleWebglError true false).forcePlayer = true ∧
    (handleWebglError true false).setStateCalls = 1 ∧
    (handleWebglError true false).returned = none ∧
    (handleWebglError true false).returned ≠ some true := by decide

/-- C8 (amended): `handleWebglError` returns no value; a transition occurs
exactly when auto-fallback is enabled and the state is still Primary, and in
that case the handler emits exactly one backend-swap notification
(`setForcePlayer true`), otherwise none — never more than one per call. -/
theorem handleWebglError_contract (ea fp : Bool) :
    (handleWebglError ea fp).returned = none ∧
    (handleWebglError ea fp).setStateCalls = (if ea && !fp then 1 else 0) ∧
    (handleWebglError ea fp).forcePlayer = (fp || (ea && !fp)) ∧
    (handleWebglError ea fp).setStateCalls ≤ 1 := by
  cases ea <;> cases fp <;> decide

/-- C9 (confirmed): `layoutGrid` is a pure per-element map — with the shape
count and viewport fixed, the placement at index `i` depends only on the
shape at index `i`, so changing another shape's bounds leaves it unchanged. -/
theorem layoutGrid_per_element (s1 s2 : List (List Attachment)) (W H : ℚ) (i : ℕ)
    (hlen : s1.length = s2.length) (hi : s1.get? i = s2.get? i) :
    (layoutGrid s1 W H).get? i = (layoutGrid s2 W H).get? i := by
  rw [layoutGrid, layoutGrid, hlen]
  by_cases hz : s2.length = 0
  · simp [hz]
  · rw [if_neg hz, if_neg hz, mapWithIndex_get?, mapWithIndex_get?, hi]

/-- C9 (witness): two shape lists agreeing at index 0 and differing at
index 1 receive the same placement at index 0. -/
theorem layoutGrid_per_element_witness :
    ([[.mesh [⟨.fin 0, .fin 0⟩, ⟨.fin 10, .fin 10⟩]],
      [.mesh [⟨.fin 0, .fin 0⟩, ⟨.fin 20, .fin 5⟩]]] : List (List Attachment)).length =
      ([[.mesh [⟨.fin 0, .fin 0⟩, ⟨.fin 10, .fin 10⟩]],
        [.mesh [⟨.fin 7, .fin 7⟩, ⟨.fin 90, .fin 90⟩]]] : List (List Attachment)).length ∧
    ([[.mesh [⟨.fin 0, .fin 0⟩, ⟨.fin 10, .fin 10⟩]],
      [.mesh [⟨.fin 0, .fin 0⟩, ⟨.fin 20, .fin 5⟩]]] : List (List Attachment)).get? 0 =
      ([[.mesh [⟨.fin 0, .fin 0⟩, ⟨.fin 10, .fin 10⟩]],
        [.mesh [⟨.fin 7, .fin 7⟩, ⟨.fin 90, .fin 90⟩]]] : List (List Attachment)).get? 0 ∧
    (layoutGrid [[.mesh [⟨.fin 0, .fin 0⟩, ⟨.fin 10, .fin 10⟩]],
        [.mesh [⟨.fin 0, .fin 0⟩, ⟨.fin 20, .fin 5⟩]]] 400 400).get? 0 =
      (layoutGrid [[.mesh [⟨.fin 0, .fin 0⟩, ⟨.fin 10, .fin 10⟩]],
        [.mesh [⟨.fin 7, .fin 7⟩, ⟨.fin 90, .fin 90⟩]]] 400 400).get? 0 :=
  ⟨rfl, rfl,
   layoutGrid_per_element
     [[.mesh [⟨.fin 0, .fin 0⟩, ⟨.fin 10, .fin 10⟩]],
      [.mesh [⟨.fin 0, .fin 0⟩, ⟨.fin 20, .fin 5⟩]]]
     [[.mesh [⟨.fin 0, .fin 0⟩, ⟨.fin 10, .fin 10⟩]],
      [.mesh [⟨.fin 7, .fin 7⟩, ⟨.fin 90, .fin 90⟩]]]
     400 400 0 rfl rfl⟩

/-- C10 (confirmed): the watchdog re-arms after firing — the firing step
resets the timer to zero, so under sustained invisibility it fires once per
elapsed grace window, repeatedly (twice on the given 1.6 s all-invisible
trace); the at-most-once fallback switch is enforced solely by the
forcePlayer guard in SpineRenderer, which turns two delivered error signals
into exactly one transition/notification. -/
theorem watchdog_rearm_repeats (s : WatchdogState) (now : ℚ)
    (h1 : s.start ≠ 0) (h2 : watchdogLimit < now - s.start) :
    watchdogStep s now true = ⟨0, s.fired + 1⟩ ∧
    runWatchdog ⟨0, 0⟩ [(100, true), (200, true), (800, true), (900, true), (1600, true)] =
      ⟨0, 2⟩ ∧
    runUnhealthy true false 2 = (true, 1) := by
  refine ⟨by simp [watchdogStep, h1, h2], ?_, by decide⟩
  norm_num [runWatchdog, watchdogStep, watchdogLimit]

/-- C10 (witness): the re-arm equation at the state armed at t = 100 and the
frame at t = 800. -/
theorem watchdog_rearm_repeats_witness :
    ((⟨100, 0⟩ : WatchdogState).start ≠ 0 ∧
      watchdogLimit < 800 - (⟨100, 0⟩ : WatchdogState).start) ∧
    (watchdogStep ⟨100, 0⟩ 800 true = ⟨0, 0 + 1⟩ ∧
     runWatchdog ⟨0, 0⟩ [(100, true), (200, true), (800, true), (900, true), (1600, true)] =
       ⟨0, 2⟩ ∧
     runUnhealthy true false 2 = (true, 1)) :=
  ⟨⟨by norm_num, by norm_num [watchdogLimit]⟩,
   watchdog_rearm_repeats ⟨100, 0⟩ 800 (by norm_num) (by norm_num [watchdogLimit])⟩

end SpineDemo
